import Mathlib

/-!
Verification of the Project Echo virtual audio device core
(src/HALPlugin/EchoHalPlugin.cpp and src/HALPlugin/EngramHalPlugin.cpp).

Shallow embedding notes:
* `Float32` samples are modelled as `Int`.  The ring-buffer code never
  computes with sample values: it only copies them and writes the literal
  `0.0f` during zero-fill, so the value domain is immaterial; an integer
  domain keeps every definition decidable/executable.
* `UInt32` cursors and sizes are modelled as `Nat`.  Under the cursor
  invariant (`writeIndex < size`, `readIndex < size`, which every claim
  assumes and which holds from initialization onward) none of the
  subtractions `w - r`, `size - r + w`, `size - avail - 1` underflows and
  no `+ 1` overflows 2^32, so `Nat` arithmetic coincides with the C
  `UInt32` arithmetic on all states the theorems speak about.
* The C functions receive the input samples through a pointer plus a
  `frames` count; we pass a `List Int` together with the count, and the C
  caller obligation "the pointer addresses at least `frames` samples"
  becomes the hypothesis `frames ≤ data.length` where it matters.
* `pthread_mutex_lock`/`unlock` delimit the critical section; the lock
  itself carries no data, so the sequential semantics of the locked body
  is the function.
-/

/-- Ring buffer state, from `EchoRingBuffer` in EchoHalPlugin.h:
`buffer` (the `Float32*` storage), `size`, `writeIndex`, `readIndex`.
The `pthread_mutex_t lock` field carries no data and is omitted. -/
structure EchoRingBuffer where
  size : Nat
  buffer : List Int
  writeIndex : Nat
  readIndex : Nat
deriving Repr, DecidableEq

/-- Embeds `EchoRingBuffer_Init(rb, size)`: `calloc` zero-initializes the
storage; both cursors start at 0. -/
def EchoRingBuffer_Init (size : Nat) : EchoRingBuffer :=
  { size := size
    buffer := List.replicate size 0
    writeIndex := 0
    readIndex := 0 }

/-- Embeds `EchoRingBuffer_GetAvailableRead`:
`(w >= r) ? (w - r) : (rb->size - r + w)`. -/
def EchoRingBuffer_GetAvailableRead (rb : EchoRingBuffer) : Nat :=
  if rb.writeIndex ≥ rb.readIndex then rb.writeIndex - rb.readIndex
  else rb.size - rb.readIndex + rb.writeIndex

/-- Embeds `EchoRingBuffer_GetAvailableWrite`:
`rb->size - EchoRingBuffer_GetAvailableRead(rb) - 1`. -/
def EchoRingBuffer_GetAvailableWrite (rb : EchoRingBuffer) : Nat :=
  rb.size - EchoRingBuffer_GetAvailableRead rb - 1

/-- The copy loop of `EchoRingBuffer_Write`: for each sample of `data`
(`data` is already truncated to `toWrite` elements by the caller),
`rb->buffer[rb->writeIndex] = data[i]; rb->writeIndex = (rb->writeIndex + 1) % rb->size;`. -/
def EchoRingBuffer.writeLoop : EchoRingBuffer → List Int → EchoRingBuffer
  | rb, [] => rb
  | rb, v :: rest =>
      EchoRingBuffer.writeLoop
        { rb with
          buffer := rb.buffer.set rb.writeIndex v
          writeIndex := (rb.writeIndex + 1) % rb.size } rest

/-- Embeds `EchoRingBuffer_Write(rb, data, frames)`: computes
`toWrite = min(frames, available)` with `available = GetAvailableWrite`,
copies `toWrite` samples advancing `writeIndex` mod `size`, and returns
`toWrite`.  Result: (new state, return value). -/
def EchoRingBuffer_Write (rb : EchoRingBuffer) (data : List Int) (frames : Nat) :
    EchoRingBuffer × Nat :=
  let available := EchoRingBuffer_GetAvailableWrite rb
  let toWrite := min frames available
  (rb.writeLoop (data.take toWrite), toWrite)

/-- The copy loop of `EchoRingBuffer_Read`: reads `n` samples, each step
`data[i] = rb->buffer[rb->readIndex]; rb->readIndex = (rb->readIndex + 1) % rb->size;`.
Returns the new state and the samples copied out, in order. -/
def EchoRingBuffer.readLoop : EchoRingBuffer → Nat → EchoRingBuffer × List Int
  | rb, 0 => (rb, [])
  | rb, n + 1 =>
      let v := rb.buffer.getD rb.readIndex 0
      let next := EchoRingBuffer.readLoop
        { rb with readIndex := (rb.readIndex + 1) % rb.size } n
      (next.1, v :: next.2)

/-- Embeds `EchoRingBuffer_Read(rb, data, frames)`: computes
`toRead = min(frames, available)` with `available = GetAvailableRead`,
copies `toRead` samples advancing `readIndex` mod `size`, zero-fills
`data[toRead .. frames)`, returns `toRead`.
Result: (new state, the `frames`-long output region, return value). -/
def EchoRingBuffer_Read (rb : EchoRingBuffer) (frames : Nat) :
    EchoRingBuffer × List Int × Nat :=
  let available := EchoRingBuffer_GetAvailableRead rb
  let toRead := min frames available
  let step := rb.readLoop toRead
  (step.1, step.2 ++ List.replicate (frames - toRead) 0, toRead)

/-- The cursor invariant: both cursors are in `[0, size)` and the storage
has exactly `size` slots (as established by `Init` and preserved by every
operation).  All claims assume (or establish) this. -/
def EchoRingBuffer.WF (rb : EchoRingBuffer) : Prop :=
  rb.writeIndex < rb.size ∧ rb.readIndex < rb.size ∧ rb.buffer.length = rb.size

instance (rb : EchoRingBuffer) : Decidable rb.WF := by
  unfold EchoRingBuffer.WF; infer_instance

/-- The samples that FIFO order delivers next: positions
`(readIndex + i) % size` for `i < n`. -/
def EchoRingBuffer.fifoSamples (rb : EchoRingBuffer) (n : Nat) : List Int :=
  (List.range n).map fun i => rb.buffer.getD ((rb.readIndex + i) % rb.size) 0

/-! ## Capture device controller (EchoDevice, IO lifecycle) -/

/-- The `kAudioServerPlugInIOOperationReadInput` selector from the host
SDK.  Its concrete numeric value is immaterial to the claims (only
equality with the selector passed to `DoIOOperation` is ever tested);
we fix a value so the definitions stay executable. -/
def kAudioServerPlugInIOOperationReadInput : Nat := 2

/-- Device state, from `EchoDevice` in EchoHalPlugin.h.  `Float64
sampleRate` is the fixed constant 48000.0, modelled as a `Nat`; the
object/stream IDs, `hostTicksPerFrame` and the `stateLock` play no part
in the claims' operations but the ones that are plain data are kept. -/
structure EchoDevice where
  sampleRate : Nat
  channels : Nat
  ringBuffer : EchoRingBuffer
  isRunning : Bool
  anchorHostTime : Nat
deriving Repr, DecidableEq

/-- Embeds `EchoDevice_StartIO`: sets `isRunning = true` and stamps
`anchorHostTime = mach_absolute_time()`; the current host clock reading
is passed in as `now`. -/
def EchoDevice_StartIO (dev : EchoDevice) (now : Nat) : EchoDevice :=
  { dev with isRunning := true, anchorHostTime := now }

/-- Embeds `EchoDevice_StopIO`: sets `isRunning = false` and nothing else. -/
def EchoDevice_StopIO (dev : EchoDevice) : EchoDevice :=
  { dev with isRunning := false }

/-- Embeds `EchoDevice_GetZeroTimeStamp`: writes `*outSampleTime = 0`,
`*outHostTime = gDevice.anchorHostTime`, `*outSeed = 1`.  Result:
(sampleTime, hostTime, seed). -/
def EchoDevice_GetZeroTimeStamp (dev : EchoDevice) : Nat × Nat × Nat :=
  (0, dev.anchorHostTime, 1)

/-- Embeds `EchoDevice_DoIOOperation`: when `operationID ==
kAudioServerPlugInIOOperationReadInput`, calls
`EchoRingBuffer_Read(&gDevice.ringBuffer, buffer, ioBufferFrameSize * gDevice.channels)`
into the host's `ioMainBuffer`; otherwise touches nothing.
`ioBufferFrameSize` and `gDevice.channels` are both `UInt32`, so the C
product is computed modulo 2^32; the `% 2^32` reproduces that wrap.
Result: (new device state, the output region written into
`ioMainBuffer`, or `none` when the operation leaves it untouched). -/
def EchoDevice_DoIOOperation (dev : EchoDevice) (operationID : Nat)
    (ioBufferFrameSize : Nat) : EchoDevice × Option (List Int) :=
  if operationID = kAudioServerPlugInIOOperationReadInput then
    let step := EchoRingBuffer_Read dev.ringBuffer
      (ioBufferFrameSize * dev.channels % 2 ^ 32)
    ({ dev with ringBuffer := step.1 }, some step.2.1)
  else
    (dev, none)

/-- The producer path (`injectSamples` in the spec) maps directly onto
`EchoRingBuffer_Write` on the device's buffer. -/
def EchoDevice_Inject (dev : EchoDevice) (data : List Int) (frames : Nat) :
    EchoDevice × Nat :=
  let step := EchoRingBuffer_Write dev.ringBuffer data frames
  ({ dev with ringBuffer := step.1 }, step.2)

/-- One host-driven or producer-driven call on the device, used to state
properties over arbitrary call sequences. -/
inductive DevOp where
  | startIO (now : Nat)
  | stopIO
  | doIO (operationID : Nat) (ioBufferFrameSize : Nat)
  | inject (data : List Int) (frames : Nat)
deriving Repr, DecidableEq

/-- Apply one call to the device. -/
def EchoDevice.step (dev : EchoDevice) : DevOp → EchoDevice
  | DevOp.startIO now => EchoDevice_StartIO dev now
  | DevOp.stopIO => EchoDevice_StopIO dev
  | DevOp.doIO op sz => (EchoDevice_DoIOOperation dev op sz).1
  | DevOp.inject data frames => (EchoDevice_Inject dev data frames).1

/-- Apply a sequence of calls to the device. -/
def EchoDevice.run (dev : EchoDevice) (ops : List DevOp) : EchoDevice :=
  ops.foldl EchoDevice.step dev

/-! ## The Engram variant (EngramHalPlugin.cpp), embedded separately
from its own source text for the C9 equivalence claim. -/

/-- Ring buffer state, from `EngramRingBuffer` in EngramHalPlugin.h. -/
structure EngramRingBuffer where
  size : Nat
  buffer : List Int
  writeIndex : Nat
  readIndex : Nat
deriving Repr, DecidableEq

/-- Embeds `EngramRingBuffer_GetAvailableRead`:
`(w >= r) ? (w - r) : (rb->size - r + w)`. -/
def EngramRingBuffer_GetAvailableRead (rb : EngramRingBuffer) : Nat :=
  if rb.writeIndex ≥ rb.readIndex then rb.writeIndex - rb.readIndex
  else rb.size - rb.readIndex + rb.writeIndex

/-- Embeds `EngramRingBuffer_GetAvailableWrite`:
`rb->size - EngramRingBuffer_GetAvailableRead(rb) - 1`. -/
def EngramRingBuffer_GetAvailableWrite (rb : EngramRingBuffer) : Nat :=
  rb.size - EngramRingBuffer_GetAvailableRead rb - 1

/-- The copy loop of `EngramRingBuffer_Write`. -/
def EngramRingBuffer.writeLoop : EngramRingBuffer → List Int → EngramRingBuffer
  | rb, [] => rb
  | rb, v :: rest =>
      EngramRingBuffer.writeLoop
        { rb with
          buffer := rb.buffer.set rb.writeIndex v
          writeIndex := (rb.writeIndex + 1) % rb.size } rest

/-- Embeds `EngramRingBuffer_Write(rb, data, frames)`. -/
def EngramRingBuffer_Write (rb : EngramRingBuffer) (data : List Int) (frames : Nat) :
    EngramRingBuffer × Nat :=
  let available := EngramRingBuffer_GetAvailableWrite rb
  let toWrite := min frames available
  (rb.writeLoop (data.take toWrite), toWrite)

/-- The copy loop of `EngramRingBuffer_Read`. -/
def EngramRingBuffer.readLoop : EngramRingBuffer → Nat → EngramRingBuffer × List Int
  | rb, 0 => (rb, [])
  | rb, n + 1 =>
      let v := rb.buffer.getD rb.readIndex 0
      let next := EngramRingBuffer.readLoop
        { rb with readIndex := (rb.readIndex + 1) % rb.size } n
      (next.1, v :: next.2)

/-- Embeds `EngramRingBuffer_Read(rb, data, frames)`. -/
def EngramRingBuffer_Read (rb : EngramRingBuffer) (frames : Nat) :
    EngramRingBuffer × List Int × Nat :=
  let available := EngramRingBuffer_GetAvailableRead rb
  let toRead := min frames available
  let step := rb.readLoop toRead
  (step.1, step.2 ++ List.replicate (frames - toRead) 0, toRead)

/-- The field-for-field correspondence between the two structurally
identical ring-buffer state types, used to compare the two variants. -/
def EchoRingBuffer.toEngram (rb : EchoRingBuffer) : EngramRingBuffer :=
  { size := rb.size
    buffer := rb.buffer
    writeIndex := rb.writeIndex
    readIndex := rb.readIndex }

/-- One call on a ring buffer, for properties quantified over arbitrary
write/read call sequences. -/
inductive RBOp where
  | write (data : List Int) (frames : Nat)
  | read (frames : Nat)
deriving Repr, DecidableEq

/-- Apply one call to a ring buffer (dropping the returned count /
output, which do not affect the successor state). -/
def EchoRingBuffer.applyOp (rb : EchoRingBuffer) : RBOp → EchoRingBuffer
  | RBOp.write data frames => (EchoRingBuffer_Write rb data frames).1
  | RBOp.read frames => (EchoRingBuffer_Read rb frames).1

/-- Apply a sequence of calls to a ring buffer. -/
def EchoRingBuffer.runOps (rb : EchoRingBuffer) (ops : List RBOp) : EchoRingBuffer :=
  ops.foldl EchoRingBuffer.applyOp rb

/-- Whether a device call is a `startIO`. -/
def DevOp.isStart : DevOp → Bool
  | DevOp.startIO _ => true
  | _ => false

/-- Writing a sequence of sample chunks through repeated
`EchoRingBuffer_Write` calls (each call passing its chunk in full). -/
def EchoRingBuffer.writeChunks (rb : EchoRingBuffer) (chunks : List (List Int)) :
    EchoRingBuffer :=
  chunks.foldl (fun s chunk => (EchoRingBuffer_Write s chunk chunk.length).1) rb

/-- A concrete ring-buffer state (capacity 4, one sample occupied) used
to instantiate the theorems on executable inputs. -/
def rbSample : EchoRingBuffer :=
  { size := 4, buffer := [10, 20, 30, 40], writeIndex := 2, readIndex := 1 }

/-- A concrete device state used to instantiate the theorems. -/
def devSample : EchoDevice :=
  { sampleRate := 48000, channels := 2, ringBuffer := rbSample,
    isRunning := false, anchorHostTime := 0 }

/-- State `devSample` with the running flag set and a nonzero anchor. -/
def devSampleRunning : EchoDevice :=
  { sampleRate := 48000, channels := 2, ringBuffer := rbSample,
    isRunning := true, anchorHostTime := 7 }

/-- The same state as `devSampleRunning` except for the running flag. -/
def devSampleStopped : EchoDevice :=
  { sampleRate := 48000, channels := 2, ringBuffer := rbSample,
    isRunning := false, anchorHostTime := 7 }

/-! ## Helper lemmas -/

/-- Reading with `getD` after `set` at a different index. -/
lemma listGetD_set_ne (l : List Int) (i j : Nat) (v : Int) (h : i ≠ j) :
    (l.set i v).getD j 0 = l.getD j 0 := by
  simp [List.getD_eq_getD_get?, List.getElem?_set_ne h]

/-- Reading with `getD` after `set` at the same (in-bounds) index. -/
lemma listGetD_set_self (l : List Int) (i : Nat) (v : Int) (h : i < l.length) :
    (l.set i v).getD i 0 = v := by
  simp [List.getD_eq_getD_get?, List.getElem?_set_eq_of_lt _ h]

/-- Advancing a cursor `w < size` by `0 < k < size` steps (mod `size`)
never lands back on `w`. -/
lemma mod_add_ne_self (w k size : Nat) (hw : w < size) (hk0 : 0 < k)
    (hks : k < size) : (w + k) % size ≠ w := by
  intro h
  rcases Nat.lt_or_ge (w + k) size with hlt | hge
  · rw [Nat.mod_eq_of_lt hlt] at h; omega
  · have h2 : (w + k) % size = (w + k - size) % size := Nat.mod_eq_sub_mod hge
    have h3 : w + k - size < size := by omega
    rw [h2, Nat.mod_eq_of_lt h3] at h
    omega

/-- Peeling one sample off the FIFO view. -/
lemma EchoRingBuffer.fifoSamples_succ (rb : EchoRingBuffer) (n : Nat)
    (h : rb.readIndex < rb.size) :
    rb.fifoSamples (n + 1) =
      rb.buffer.getD rb.readIndex 0 ::
        EchoRingBuffer.fifoSamples
          { rb with readIndex := (rb.readIndex + 1) % rb.size } n := by
  unfold EchoRingBuffer.fifoSamples
  simp only [List.range_succ_eq_map, List.map_cons, List.map_map]
  refine congrArg₂ _ ?_ ?_
  · simp [Nat.mod_eq_of_lt h]
  · refine List.map_congr_left fun i _ => ?_
    simp only [Function.comp]
    refine congrArg (fun k => rb.buffer.getD k 0) ?_
    rw [Nat.mod_add_mod]
    congr 1
    omega

/-- Full characterization of the read loop: it returns the next `n` FIFO
samples and advances the read cursor by `n` (mod `size`), leaving the
storage, the write cursor and the size untouched. -/
lemma EchoRingBuffer.readLoop_spec (n : Nat) :
    ∀ rb : EchoRingBuffer, rb.readIndex < rb.size →
      rb.readLoop n =
        ({ rb with readIndex := (rb.readIndex + n) % rb.size }, rb.fifoSamples n) := by
  induction n with
  | zero =>
      intro rb h
      simp [EchoRingBuffer.readLoop, EchoRingBuffer.fifoSamples, Nat.mod_eq_of_lt h]
  | succ n ih =>
      intro rb h
      have hsz : 0 < rb.size := Nat.lt_of_le_of_lt (Nat.zero_le _) h
      rw [EchoRingBuffer.fifoSamples_succ rb n h]
      simp only [EchoRingBuffer.readLoop]
      rw [ih _ (Nat.mod_lt _ hsz)]
      simp only [Prod.mk.injEq]
      refine ⟨?_, trivial⟩
      congr 1
      rw [Nat.mod_add_mod]
      congr 1
      omega

/-- Cursor advanced one step then `i` more lands where a single
`(i + 1)`-step advance does. -/
lemma idx_shift (w i size : Nat) :
    ((w + 1) % size + i) % size = (w + (i + 1)) % size := by
  rw [Nat.mod_add_mod]
  congr 1
  omega

/-- Full characterization of the write loop on `data` with
`data.length ≤ size`: it stores `data[i]` at slot `(writeIndex + i) % size`,
advances the write cursor by `data.length` (mod `size`), and leaves the
size, the read cursor and every other slot untouched. -/
lemma EchoRingBuffer.writeLoop_spec (data : List Int) :
    ∀ rb : EchoRingBuffer, rb.writeIndex < rb.size →
      rb.buffer.length = rb.size → data.length ≤ rb.size →
      (rb.writeLoop data).size = rb.size ∧
      (rb.writeLoop data).readIndex = rb.readIndex ∧
      (rb.writeLoop data).buffer.length = rb.size ∧
      (rb.writeLoop data).writeIndex = (rb.writeIndex + data.length) % rb.size ∧
      (∀ i, i < data.length →
        (rb.writeLoop data).buffer.getD ((rb.writeIndex + i) % rb.size) 0 =
          data.getD i 0) ∧
      (∀ j, (∀ i, i < data.length → (rb.writeIndex + i) % rb.size ≠ j) →
        (rb.writeLoop data).buffer.getD j 0 = rb.buffer.getD j 0) := by
  induction data with
  | nil =>
      intro rb hw hb _
      refine ⟨rfl, rfl, hb, ?_, ?_, ?_⟩
      · simp [EchoRingBuffer.writeLoop, Nat.mod_eq_of_lt hw]
      · intro i hi; exact absurd hi (Nat.not_lt_zero i)
      · intro j _; rfl
  | cons v rest ih =>
      intro rb hw hb hlen
      have hsz : 0 < rb.size := Nat.lt_of_le_of_lt (Nat.zero_le _) hw
      have hlen' : rest.length + 1 ≤ rb.size := by
        simpa using hlen
      obtain ⟨e1, e2, e3, e4, e5, e6⟩ :=
        ih { rb with buffer := rb.buffer.set rb.writeIndex v,
                     writeIndex := (rb.writeIndex + 1) % rb.size }
          (Nat.mod_lt _ hsz) (by simp [hb]) (by simp; omega)
      have hloop : rb.writeLoop (v :: rest) =
          EchoRingBuffer.writeLoop
            { rb with buffer := rb.buffer.set rb.writeIndex v,
                      writeIndex := (rb.writeIndex + 1) % rb.size } rest := rfl
      rw [hloop]
      refine ⟨e1, e2, e3, ?_, ?_, ?_⟩
      · rw [e4]
        simp only [List.length_cons]
        exact idx_shift rb.writeIndex rest.length rb.size
      · intro i hi
        cases i with
        | zero =>
            have hne : ∀ k, k < rest.length →
                (((rb.writeIndex + 1) % rb.size + k) % rb.size) ≠ rb.writeIndex := by
              intro k hk
              rw [idx_shift]
              exact mod_add_ne_self rb.writeIndex (k + 1) rb.size hw
                (Nat.succ_pos k) (by omega)
            have := e6 rb.writeIndex hne
            simp only [Nat.add_zero, Nat.mod_eq_of_lt hw]
            rw [this]
            simpa using listGetD_set_self rb.buffer rb.writeIndex v (by omega)
        | succ i' =>
            have hi' : i' < rest.length := by simpa using hi
            have := e5 i' hi'
            rw [idx_shift] at this
            simpa using this
      · intro j hj
        have hj0 : rb.writeIndex ≠ j := by
          have := hj 0 (Nat.succ_pos _)
          simpa [Nat.mod_eq_of_lt hw] using this
        have hne : ∀ k, k < rest.length →
            (((rb.writeIndex + 1) % rb.size + k) % rb.size) ≠ j := by
          intro k hk
          rw [idx_shift]
          exact hj (k + 1) (by simp only [List.length_cons]; omega)
        have := e6 j hne
        rw [this]
        simpa using listGetD_set_ne rb.buffer rb.writeIndex j v hj0

/-- Reading with `getD` inside the `take`-n region. -/
lemma listGetD_take (l : List Int) (n i : Nat) (h : i < n) :
    (l.take n).getD i 0 = l.getD i 0 := by
  simp [List.getD_eq_getD_get?, List.getElem?_take_of_lt h]

/-- Reading with `getD` from a zero replicate gives zero. -/
lemma listGetD_replicate_zero (n i : Nat) :
    (List.replicate n (0 : Int)).getD i 0 = 0 := by
  rcases Nat.lt_or_ge i n with h | h
  · rw [List.getD_eq_getElem _ _ (by simpa using h)]
    simp
  · rw [List.getD_eq_default _ _ (by simpa using h)]

/-- Pointwise list equality from `getD` agreement. -/
lemma list_eq_of_getD (l1 l2 : List Int) (hlen : l1.length = l2.length)
    (h : ∀ i, i < l1.length → l1.getD i 0 = l2.getD i 0) : l1 = l2 := by
  refine List.ext_getElem hlen fun i h1 h2 => ?_
  have := h i h1
  rwa [List.getD_eq_getElem _ _ h1, List.getD_eq_getElem _ _ h2] at this

/-- Cancellation of equal offsets modulo the capacity. -/
lemma add_mod_cancel_lt (r a b C : Nat) (ha : a < C) (hb : b < C)
    (h : (r + a) % C = (r + b) % C) : a = b := by
  have h2 : a ≡ b [MOD C] := Nat.ModEq.add_left_cancel' r h
  rwa [Nat.ModEq, Nat.mod_eq_of_lt ha, Nat.mod_eq_of_lt hb] at h2

/-- The length of the read loop's output is exactly the request. -/
lemma EchoRingBuffer.readLoop_length (n : Nat) :
    ∀ rb : EchoRingBuffer, (rb.readLoop n).2.length = n := by
  induction n with
  | zero => intro rb; rfl
  | succ n ih =>
      intro rb
      simp only [EchoRingBuffer.readLoop, List.length_cons]
      rw [ih]

/-- The list `fifoSamples` has the length asked for. -/
lemma EchoRingBuffer.fifoSamples_length (rb : EchoRingBuffer) (n : Nat) :
    (rb.fifoSamples n).length = n := by
  simp [EchoRingBuffer.fifoSamples]

/-- Pointwise view of `fifoSamples`. -/
lemma EchoRingBuffer.fifoSamples_getD (rb : EchoRingBuffer) (n j : Nat) (hj : j < n) :
    (rb.fifoSamples n).getD j 0 =
      rb.buffer.getD ((rb.readIndex + j) % rb.size) 0 := by
  unfold EchoRingBuffer.fifoSamples
  rw [List.getD_eq_getD_get?]
  simp [List.getElem?_range hj]

/-- Occupancy is bounded by `size - 1` whenever the cursors are in range. -/
lemma EchoRingBuffer.availRead_le (rb : EchoRingBuffer)
    (hw : rb.writeIndex < rb.size) (hr : rb.readIndex < rb.size) :
    EchoRingBuffer_GetAvailableRead rb ≤ rb.size - 1 := by
  unfold EchoRingBuffer_GetAvailableRead
  split <;> omega

/-- The write cursor marks the end of the occupied region:
`writeIndex = (readIndex + occupied) % size`. -/
lemma EchoRingBuffer.writeIndex_eq (rb : EchoRingBuffer)
    (hw : rb.writeIndex < rb.size) (hr : rb.readIndex < rb.size) :
    rb.writeIndex = (rb.readIndex + EchoRingBuffer_GetAvailableRead rb) % rb.size := by
  unfold EchoRingBuffer_GetAvailableRead
  split
  · have h1 : rb.readIndex + (rb.writeIndex - rb.readIndex) = rb.writeIndex := by omega
    rw [h1, Nat.mod_eq_of_lt hw]
  · have h1 : rb.readIndex + (rb.size - rb.readIndex + rb.writeIndex) =
        rb.size + rb.writeIndex := by omega
    rw [h1, Nat.add_mod_left, Nat.mod_eq_of_lt hw]

/-- Advancing the write cursor by `k` (with `occupied + k ≤ size - 1`)
raises the occupancy by exactly `k`. -/
lemma EchoRingBuffer.availRead_advance (rb' rb : EchoRingBuffer) (k : Nat)
    (hsz : rb'.size = rb.size)
    (hw' : rb'.writeIndex = (rb.writeIndex + k) % rb.size)
    (hr' : rb'.readIndex = rb.readIndex)
    (hw : rb.writeIndex < rb.size) (hr : rb.readIndex < rb.size)
    (hk : EchoRingBuffer_GetAvailableRead rb + k + 1 ≤ rb.size) :
    EchoRingBuffer_GetAvailableRead rb' = EchoRingBuffer_GetAvailableRead rb + k := by
  have hm : (rb.writeIndex + k) % rb.size =
      if rb.writeIndex + k < rb.size then rb.writeIndex + k
      else rb.writeIndex + k - rb.size := by
    split
    · exact Nat.mod_eq_of_lt (by assumption)
    · rw [Nat.mod_eq_sub_mod (by omega)]
      refine Nat.mod_eq_of_lt ?_
      unfold EchoRingBuffer_GetAvailableRead at hk
      split at hk <;> omega
  unfold EchoRingBuffer_GetAvailableRead at hk ⊢
  rw [hw', hr', hsz, hm]
  split at hk <;> split_ifs <;> omega

/-- A write preserves the cursor invariant and the capacity. -/
lemma EchoRingBuffer.write_WF (rb : EchoRingBuffer) (data : List Int) (frames : Nat)
    (h : rb.WF) :
    (EchoRingBuffer_Write rb data frames).1.WF ∧
      (EchoRingBuffer_Write rb data frames).1.size = rb.size := by
  obtain ⟨hw, hr, hb⟩ := h
  have hlen : (data.take (min frames (EchoRingBuffer_GetAvailableWrite rb))).length
      ≤ rb.size := by
    have : EchoRingBuffer_GetAvailableWrite rb ≤ rb.size := by
      unfold EchoRingBuffer_GetAvailableWrite; omega
    simp only [List.length_take]
    omega
  obtain ⟨e1, e2, e3, e4, _, _⟩ :=
    EchoRingBuffer.writeLoop_spec
      (data.take (min frames (EchoRingBuffer_GetAvailableWrite rb))) rb hw hb hlen
  have hsz : 0 < rb.size := Nat.lt_of_le_of_lt (Nat.zero_le _) hw
  refine ⟨⟨?_, ?_, ?_⟩, e1⟩
  · rw [show (EchoRingBuffer_Write rb data frames).1 =
        rb.writeLoop (data.take (min frames (EchoRingBuffer_GetAvailableWrite rb)))
        from rfl, e4, e1]
    exact Nat.mod_lt _ hsz
  · rw [show (EchoRingBuffer_Write rb data frames).1 =
        rb.writeLoop (data.take (min frames (EchoRingBuffer_GetAvailableWrite rb)))
        from rfl, e2, e1]
    exact hr
  · rw [show (EchoRingBuffer_Write rb data frames).1 =
        rb.writeLoop (data.take (min frames (EchoRingBuffer_GetAvailableWrite rb)))
        from rfl, e1]
    exact e3

/-- A read preserves the cursor invariant and the capacity. -/
lemma EchoRingBuffer.read_WF (rb : EchoRingBuffer) (frames : Nat) (h : rb.WF) :
    (EchoRingBuffer_Read rb frames).1.WF ∧
      (EchoRingBuffer_Read rb frames).1.size = rb.size := by
  obtain ⟨hw, hr, hb⟩ := h
  have hsz : 0 < rb.size := Nat.lt_of_le_of_lt (Nat.zero_le _) hw
  have hstep := EchoRingBuffer.readLoop_spec
    (min frames (EchoRingBuffer_GetAvailableRead rb)) rb hr
  have h1 : (EchoRingBuffer_Read rb frames).1 =
      (rb.readLoop (min frames (EchoRingBuffer_GetAvailableRead rb))).1 := rfl
  rw [h1, hstep]
  exact ⟨⟨hw, Nat.mod_lt _ hsz, hb⟩, rfl⟩

/-! ## Claim theorems -/

/-- Claim C1: For every buffer state satisfying the cursor invariant and
every requested count, `EchoRingBuffer_Read` copies
`min(count, occupied)` samples starting at `readCursor` in FIFO order
into the output, advances `readCursor` modulo capacity by that amount,
writes exact zero values into every remaining output slot from position
`min(count, occupied)` up to `count`, and returns `min(count, occupied)`
(the count of real samples, not counting zero-fill), so the output holds
exactly `count` well-defined samples. -/
theorem C1_read_underrun_zero_fill (rb : EchoRingBuffer) (count : Nat)
    (hwf : rb.WF) :
    let occ := EchoRingBuffer_GetAvailableRead rb
    let result := EchoRingBuffer_Read rb count
    result.2.2 = min count occ ∧
    result.2.1 =
      rb.fifoSamples (min count occ) ++ List.replicate (count - min count occ) 0 ∧
    result.2.1.length = count ∧
    (∀ i, min count occ ≤ i → i < count → result.2.1.getD i 0 = 0) ∧
    result.1.readIndex = (rb.readIndex + min count occ) % rb.size ∧
    result.1.writeIndex = rb.writeIndex ∧
    result.1.buffer = rb.buffer ∧
    result.1.size = rb.size := by
  obtain ⟨hw, hr, hb⟩ := hwf
  intro occ result
  have hocc : occ ≤ rb.size - 1 := EchoRingBuffer.availRead_le rb hw hr
  have hstep := EchoRingBuffer.readLoop_spec (min count occ) rb hr
  have hres : result = ((rb.readLoop (min count occ)).1,
      (rb.readLoop (min count occ)).2 ++ List.replicate (count - min count occ) 0,
      min count occ) := rfl
  rw [hres, hstep]
  refine ⟨rfl, rfl, ?_, ?_, rfl, rfl, rfl, rfl⟩
  · rw [List.length_append, EchoRingBuffer.fifoSamples_length, List.length_replicate]
    omega
  · intro i h1 h2
    rw [List.getD_append_right _ _ _ _
        (by rw [EchoRingBuffer.fifoSamples_length]; exact h1)]
    exact listGetD_replicate_zero _ _

/-- Claim C2: For every buffer state satisfying the cursor invariant and
every input of `count` samples (including `count = 0`, which returns 0
and changes nothing), `EchoRingBuffer_Write` stores exactly
`min(count, free)` samples starting at `writeCursor`, advances
`writeCursor` modulo capacity by that amount, returns `min(count, free)`,
and drops the excess input beyond `free` without modifying any other
slot of the storage. -/
theorem C2_write_overrun_drop (rb : EchoRingBuffer) (data : List Int) (count : Nat)
    (hwf : rb.WF) (hdata : count ≤ data.length) :
    let free := EchoRingBuffer_GetAvailableWrite rb
    let result := EchoRingBuffer_Write rb data count
    result.2 = min count free ∧
    result.1.writeIndex = (rb.writeIndex + min count free) % rb.size ∧
    result.1.readIndex = rb.readIndex ∧
    result.1.size = rb.size ∧
    result.1.buffer.length = rb.size ∧
    (∀ i, i < min count free →
      result.1.buffer.getD ((rb.writeIndex + i) % rb.size) 0 = data.getD i 0) ∧
    (∀ j, (∀ i, i < min count free → (rb.writeIndex + i) % rb.size ≠ j) →
      result.1.buffer.getD j 0 = rb.buffer.getD j 0) ∧
    (count = 0 → result.1 = rb ∧ result.2 = 0) := by
  obtain ⟨hw, hr, hb⟩ := hwf
  intro free result
  have htake : (data.take (min count free)).length = min count free := by
    simp only [List.length_take]
    omega
  have hlen : (data.take (min count free)).length ≤ rb.size := by
    rw [htake]
    have hfree : free = EchoRingBuffer_GetAvailableWrite rb := rfl
    have : free ≤ rb.size := by
      rw [hfree]; unfold EchoRingBuffer_GetAvailableWrite; omega
    omega
  obtain ⟨e1, e2, e3, e4, e5, e6⟩ :=
    EchoRingBuffer.writeLoop_spec (data.take (min count free)) rb hw hb hlen
  have hres : result = (rb.writeLoop (data.take (min count free)), min count free) := rfl
  rw [hres]
  refine ⟨rfl, ?_, e2, e1, e3, ?_, ?_, ?_⟩
  · rw [e4, htake]
  · intro i hi
    have := e5 i (by rw [htake]; exact hi)
    rw [this]
    exact listGetD_take data (min count free) i hi
  · intro j hj
    refine e6 j fun i hi => ?_
    rw [htake] at hi
    exact hj i hi
  · intro hc
    subst hc
    refine ⟨?_, by simp⟩
    simp only [Nat.zero_min, List.take_zero]
    rfl

/-- Claim C3: `availableToWrite` always equals `C - occupied - 1`, so
usable capacity is exactly `C - 1`: writing `C - 1` samples into an
empty (freshly initialized) buffer returns `C - 1`, and any subsequent
write (of `count ≥ 1`) to the now-full buffer returns 0 and leaves the
buffer unchanged. -/
theorem C3_usable_capacity (C : Nat) (hC : 0 < C) (data data2 : List Int)
    (count2 : Nat) (hdata : C - 1 ≤ data.length) (hcount2 : 1 ≤ count2) :
    (∀ rb : EchoRingBuffer, EchoRingBuffer_GetAvailableWrite rb =
      rb.size - EchoRingBuffer_GetAvailableRead rb - 1) ∧
    (EchoRingBuffer_Write (EchoRingBuffer_Init C) data (C - 1)).2 = C - 1 ∧
    EchoRingBuffer_Write
        (EchoRingBuffer_Write (EchoRingBuffer_Init C) data (C - 1)).1 data2 count2 =
      ((EchoRingBuffer_Write (EchoRingBuffer_Init C) data (C - 1)).1, 0) := by
  have hA : EchoRingBuffer_GetAvailableRead (EchoRingBuffer_Init C) = 0 := by
    simp [EchoRingBuffer_GetAvailableRead, EchoRingBuffer_Init]
  have hW : EchoRingBuffer_GetAvailableWrite (EchoRingBuffer_Init C) = C - 1 := by
    unfold EchoRingBuffer_GetAvailableWrite
    rw [hA]
    rfl
  have hwI : (EchoRingBuffer_Init C).writeIndex < (EchoRingBuffer_Init C).size := hC
  have hbI : (EchoRingBuffer_Init C).buffer.length = (EchoRingBuffer_Init C).size := by
    simp [EchoRingBuffer_Init]
  have htake : (data.take (min (C - 1)
      (EchoRingBuffer_GetAvailableWrite (EchoRingBuffer_Init C)))).length = C - 1 := by
    rw [hW]
    simp only [List.length_take]
    omega
  obtain ⟨e1, e2, e3, e4, _, _⟩ :=
    EchoRingBuffer.writeLoop_spec
      (data.take (min (C - 1) (EchoRingBuffer_GetAvailableWrite (EchoRingBuffer_Init C))))
      (EchoRingBuffer_Init C) hwI hbI (by rw [htake]; show C - 1 ≤ C; omega)
  rw [htake] at e4
  have hrb1 : (EchoRingBuffer_Write (EchoRingBuffer_Init C) data (C - 1)).1 =
      (EchoRingBuffer_Init C).writeLoop
        (data.take (min (C - 1)
          (EchoRingBuffer_GetAvailableWrite (EchoRingBuffer_Init C)))) := rfl
  have hw1 : (EchoRingBuffer_Write (EchoRingBuffer_Init C) data (C - 1)).1.writeIndex
      = C - 1 := by
    rw [hrb1, e4]
    simp only [EchoRingBuffer_Init]
    rw [Nat.zero_add, Nat.mod_eq_of_lt (by omega)]
  have hr1 : (EchoRingBuffer_Write (EchoRingBuffer_Init C) data (C - 1)).1.readIndex
      = 0 := by
    rw [hrb1, e2]; rfl
  have hs1 : (EchoRingBuffer_Write (EchoRingBuffer_Init C) data (C - 1)).1.size = C := by
    rw [hrb1, e1]; rfl
  have hA1 : EchoRingBuffer_GetAvailableRead
      (EchoRingBuffer_Write (EchoRingBuffer_Init C) data (C - 1)).1 = C - 1 := by
    unfold EchoRingBuffer_GetAvailableRead
    rw [hw1, hr1, hs1]
    split <;> omega
  have hW1 : EchoRingBuffer_GetAvailableWrite
      (EchoRingBuffer_Write (EchoRingBuffer_Init C) data (C - 1)).1 = 0 := by
    unfold EchoRingBuffer_GetAvailableWrite
    rw [hA1, hs1]
    omega
  refine ⟨fun rb => rfl, ?_, ?_⟩
  · show min (C - 1) (EchoRingBuffer_GetAvailableWrite (EchoRingBuffer_Init C)) = C - 1
    rw [hW]
    exact Nat.min_self _
  · show ((EchoRingBuffer_Write (EchoRingBuffer_Init C) data (C - 1)).1.writeLoop
        (data2.take (min count2 (EchoRingBuffer_GetAvailableWrite
          (EchoRingBuffer_Write (EchoRingBuffer_Init C) data (C - 1)).1))),
        min count2 (EchoRingBuffer_GetAvailableWrite
          (EchoRingBuffer_Write (EchoRingBuffer_Init C) data (C - 1)).1)) = _
    rw [hW1]
    simp [EchoRingBuffer.writeLoop]

/-- Claim C4: For every sequence of write and read operations starting
from a freshly initialized buffer of capacity `C > 0`, the state
invariant holds after each operation: both cursors lie in `[0, C)`,
occupied (by the two-branch cursor formula) is at most `C - 1`, and
`EchoRingBuffer_GetAvailableRead` returns exactly that formula. -/
theorem C4_invariant_preserved (C : Nat) (hC : 0 < C) (ops : List RBOp) :
    let rb := (EchoRingBuffer_Init C).runOps ops
    rb.size = C ∧ rb.writeIndex < C ∧ rb.readIndex < C ∧
    EchoRingBuffer_GetAvailableRead rb =
      (if rb.writeIndex ≥ rb.readIndex then rb.writeIndex - rb.readIndex
       else C - rb.readIndex + rb.writeIndex) ∧
    EchoRingBuffer_GetAvailableRead rb ≤ C - 1 := by
  have main : ∀ (ops : List RBOp) (rb : EchoRingBuffer), rb.WF →
      (rb.runOps ops).WF ∧ (rb.runOps ops).size = rb.size := by
    intro ops
    induction ops with
    | nil => intro rb h; exact ⟨h, rfl⟩
    | cons op rest ih =>
        intro rb h
        have hstep : (rb.applyOp op).WF ∧ (rb.applyOp op).size = rb.size := by
          cases op with
          | write data frames => exact rb.write_WF data frames h
          | read frames => exact rb.read_WF frames h
        have hrest := ih (rb.applyOp op) hstep.1
        refine ⟨hrest.1, ?_⟩
        rw [show rb.runOps (op :: rest) = (rb.applyOp op).runOps rest from rfl,
          hrest.2, hstep.2]
  have hwfI : (EchoRingBuffer_Init C).WF := ⟨hC, hC, by simp [EchoRingBuffer_Init]⟩
  obtain ⟨⟨hw, hr, hb⟩, hsz⟩ := main ops (EchoRingBuffer_Init C) hwfI
  have hszC : ((EchoRingBuffer_Init C).runOps ops).size = C := hsz
  refine ⟨hszC, by omega, by omega, ?_, ?_⟩
  · unfold EchoRingBuffer_GetAvailableRead
    rw [hszC]
  · have := EchoRingBuffer.availRead_le ((EchoRingBuffer_Init C).runOps ops) hw hr
    omega

/-- A freshly initialized buffer is empty. -/
lemma availRead_init (C : Nat) :
    EchoRingBuffer_GetAvailableRead (EchoRingBuffer_Init C) = 0 := by
  simp [EchoRingBuffer_GetAvailableRead, EchoRingBuffer_Init]

/-- Writing one full chunk while `occupied + |chunk| ≤ size - 1` appends
the chunk to the FIFO contents and raises occupancy accordingly. -/
lemma EchoRingBuffer.write_append (rb : EchoRingBuffer) (chunk acc : List Int)
    (hwf : rb.WF)
    (hocc : EchoRingBuffer_GetAvailableRead rb = acc.length)
    (hfifo : rb.fifoSamples acc.length = acc)
    (hroom : acc.length + chunk.length + 1 ≤ rb.size) :
    ((EchoRingBuffer_Write rb chunk chunk.length).1.WF ∧
      (EchoRingBuffer_Write rb chunk chunk.length).1.size = rb.size) ∧
    (EchoRingBuffer_Write rb chunk chunk.length).1.readIndex = rb.readIndex ∧
    EchoRingBuffer_GetAvailableRead (EchoRingBuffer_Write rb chunk chunk.length).1 =
      acc.length + chunk.length ∧
    (EchoRingBuffer_Write rb chunk chunk.length).1.fifoSamples
      (acc.length + chunk.length) = acc ++ chunk := by
  obtain ⟨hw, hr, hb⟩ := hwf
  have hsz : 0 < rb.size := Nat.lt_of_le_of_lt (Nat.zero_le _) hw
  have hfree : EchoRingBuffer_GetAvailableWrite rb = rb.size - acc.length - 1 := by
    unfold EchoRingBuffer_GetAvailableWrite
    rw [hocc]
  have hmin : min chunk.length (EchoRingBuffer_GetAvailableWrite rb) = chunk.length := by
    rw [hfree]
    omega
  have hrb1 : (EchoRingBuffer_Write rb chunk chunk.length).1 = rb.writeLoop chunk := by
    show rb.writeLoop (chunk.take (min chunk.length
      (EchoRingBuffer_GetAvailableWrite rb))) = rb.writeLoop chunk
    rw [hmin, List.take_length]
  obtain ⟨e1, e2, e3, e4, e5, e6⟩ :=
    EchoRingBuffer.writeLoop_spec chunk rb hw hb (by omega)
  have hwr : rb.writeIndex = (rb.readIndex + acc.length) % rb.size := by
    have := EchoRingBuffer.writeIndex_eq rb hw hr
    rwa [hocc] at this
  have hwidx : ∀ i, (rb.writeIndex + i) % rb.size =
      (rb.readIndex + (acc.length + i)) % rb.size := by
    intro i
    rw [hwr, Nat.mod_add_mod, Nat.add_assoc]
  rw [hrb1]
  have hWF : (rb.writeLoop chunk).WF := by
    refine ⟨?_, ?_, ?_⟩
    · rw [e4, e1]; exact Nat.mod_lt _ hsz
    · rw [e2, e1]; exact hr
    · rw [e1]; exact e3
  have hAv : EchoRingBuffer_GetAvailableRead (rb.writeLoop chunk) =
      acc.length + chunk.length := by
    have := EchoRingBuffer.availRead_advance (rb.writeLoop chunk) rb chunk.length
      e1 e4 e2 hw hr (by rw [hocc]; omega)
    rw [this, hocc]
  refine ⟨⟨hWF, e1⟩, e2, hAv, ?_⟩
  refine list_eq_of_getD _ _ ?_ ?_
  · rw [EchoRingBuffer.fifoSamples_length, List.length_append]
  · intro j hj
    rw [EchoRingBuffer.fifoSamples_length] at hj
    rw [EchoRingBuffer.fifoSamples_getD _ _ _ hj, e2, e1]
    rcases Nat.lt_or_ge j acc.length with hjlt | hjge
    · have hne : ∀ i, i < chunk.length →
          (rb.writeIndex + i) % rb.size ≠ (rb.readIndex + j) % rb.size := by
        intro i hi heq
        rw [hwidx i] at heq
        have := add_mod_cancel_lt rb.readIndex (acc.length + i) j rb.size
          (by omega) (by omega) heq
        omega
      rw [e6 _ hne]
      have hold : rb.buffer.getD ((rb.readIndex + j) % rb.size) 0 = acc.getD j 0 := by
        have := EchoRingBuffer.fifoSamples_getD rb acc.length j hjlt
        rw [hfifo] at this
        exact this.symm
      rw [hold, List.getD_append _ _ _ _ hjlt]
    · have hi : j - acc.length < chunk.length := by omega
      have hjdecomp : j = acc.length + (j - acc.length) := by omega
      rw [hjdecomp, ← hwidx (j - acc.length), e5 _ hi,
        List.getD_append_right _ _ _ _ (by omega)]
      congr 1
      omega

/-- Writing a list of chunks into a buffer holding `acc` (with enough
room for all of them) yields a buffer holding `acc ++ chunks.join`. -/
lemma EchoRingBuffer.writeChunks_inv (chunks : List (List Int)) :
    ∀ (rb : EchoRingBuffer) (acc : List Int),
      rb.WF →
      EchoRingBuffer_GetAvailableRead rb = acc.length →
      rb.fifoSamples acc.length = acc →
      acc.length + (chunks.join).length + 1 ≤ rb.size →
      (rb.writeChunks chunks).WF ∧
      (rb.writeChunks chunks).size = rb.size ∧
      (rb.writeChunks chunks).readIndex = rb.readIndex ∧
      EchoRingBuffer_GetAvailableRead (rb.writeChunks chunks) =
        acc.length + (chunks.join).length ∧
      (rb.writeChunks chunks).fifoSamples (acc.length + (chunks.join).length) =
        acc ++ chunks.join := by
  induction chunks with
  | nil =>
      intro rb acc hwf hocc hfifo _
      refine ⟨hwf, rfl, rfl, ?_, ?_⟩
      · simpa [List.join] using hocc
      · simpa [List.join] using hfifo
  | cons chunk rest ih =>
      intro rb acc hwf hocc hfifo hroom
      have hjoin : ((chunk :: rest).join).length = chunk.length + (rest.join).length := by
        simp [List.join]
      obtain ⟨⟨hwf1, hsz1⟩, hr1, hocc1, hfifo1⟩ :=
        rb.write_append chunk acc hwf hocc hfifo (by omega)
      have hstep : rb.writeChunks (chunk :: rest) =
          ((EchoRingBuffer_Write rb chunk chunk.length).1).writeChunks rest := rfl
      have hocc1' : EchoRingBuffer_GetAvailableRead
          (EchoRingBuffer_Write rb chunk chunk.length).1 = (acc ++ chunk).length := by
        rw [hocc1, List.length_append]
      have hfifo1' : (EchoRingBuffer_Write rb chunk chunk.length).1.fifoSamples
          ((acc ++ chunk).length) = acc ++ chunk := by
        rw [List.length_append]
        exact hfifo1
      obtain ⟨f1, f2, f3, f4, f5⟩ :=
        ih (EchoRingBuffer_Write rb chunk chunk.length).1 (acc ++ chunk)
          hwf1 hocc1' hfifo1'
          (by rw [List.length_append, hsz1]; omega)
      rw [hstep]
      refine ⟨f1, by rw [f2, hsz1], by rw [f3, hr1], ?_, ?_⟩
      · rw [f4, List.length_append, hjoin]
        omega
      · have hn : (acc ++ chunk).length + (rest.join).length =
            acc.length + ((chunk :: rest).join).length := by
          rw [List.length_append, hjoin]
          omega
        rw [← hn, f5]
        simp [List.join, List.append_assoc]

/-- Claim C5: Round-trip: for every pattern `P` (given as the
concatenation of the chunks written, one `EchoRingBuffer_Write` call per
chunk) of total length `L ≤ C - 1`, writing it into a freshly
initialized buffer of capacity `C` and then reading `L` samples yields
exactly `P`, in FIFO order, with the returned real-sample count `L`. -/
theorem C5_round_trip (C : Nat) (hC : 0 < C) (chunks : List (List Int))
    (hlen : (chunks.join).length ≤ C - 1) :
    (EchoRingBuffer_Read ((EchoRingBuffer_Init C).writeChunks chunks)
        (chunks.join).length).2.1 = chunks.join ∧
    (EchoRingBuffer_Read ((EchoRingBuffer_Init C).writeChunks chunks)
        (chunks.join).length).2.2 = (chunks.join).length := by
  have hwfI : (EchoRingBuffer_Init C).WF := ⟨hC, hC, by simp [EchoRingBuffer_Init]⟩
  obtain ⟨hwfF, hszF, _, hoccF, hfifoF⟩ :=
    EchoRingBuffer.writeChunks_inv chunks (EchoRingBuffer_Init C) []
      hwfI (by simpa using availRead_init C) rfl
      (by show 0 + (chunks.join).length + 1 ≤ C; omega)
  simp only [List.length_nil, Nat.zero_add] at hoccF hfifoF
  obtain ⟨_, hrF, _⟩ := hwfF
  have hmin : min (chunks.join).length
      (EchoRingBuffer_GetAvailableRead ((EchoRingBuffer_Init C).writeChunks chunks)) =
      (chunks.join).length := by
    rw [hoccF]
    exact Nat.min_self _
  have hres : EchoRingBuffer_Read ((EchoRingBuffer_Init C).writeChunks chunks)
      (chunks.join).length =
      ((((EchoRingBuffer_Init C).writeChunks chunks).readLoop
          (min (chunks.join).length (EchoRingBuffer_GetAvailableRead
            ((EchoRingBuffer_Init C).writeChunks chunks)))).1,
        (((EchoRingBuffer_Init C).writeChunks chunks).readLoop
          (min (chunks.join).length (EchoRingBuffer_GetAvailableRead
            ((EchoRingBuffer_Init C).writeChunks chunks)))).2 ++
          List.replicate ((chunks.join).length -
            min (chunks.join).length (EchoRingBuffer_GetAvailableRead
              ((EchoRingBuffer_Init C).writeChunks chunks))) 0,
        min (chunks.join).length (EchoRingBuffer_GetAvailableRead
          ((EchoRingBuffer_Init C).writeChunks chunks))) := rfl
  rw [hres, hmin,
    EchoRingBuffer.readLoop_spec ((chunks.join).length) _ hrF]
  refine ⟨?_, rfl⟩
  rw [hfifoF]
  simp

/-- Claim C6: `start()` sets `isRunning` and stores the current host
clock reading as `anchorHostTime` (also when already running);
`zeroTimestamp()`, callable in any state, returns exactly
`(sampleTime = 0, hostTime = anchorHostTime, seed = 1)`, so every
zero-timestamp query after a `start()` and before the next `start()`
returns the anchor captured by that `start()`. -/
theorem C6_start_anchors_timestamp (dev : EchoDevice) (now : Nat) (ops : List DevOp)
    (hops : ∀ op ∈ ops, op.isStart = false) :
    ( EchoDevice_StartIO dev now).isRunning = true ∧
    ( EchoDevice_StartIO dev now).anchorHostTime = now ∧
    (∀ d : EchoDevice, EchoDevice_GetZeroTimeStamp d = (0, d.anchorHostTime, 1)) ∧
    EchoDevice_GetZeroTimeStamp (( EchoDevice_StartIO dev now).run ops) =
      (0, now, 1) := by
  have anchor_stable : ∀ (ops : List DevOp) (d : EchoDevice),
      (∀ op ∈ ops, op.isStart = false) →
      (d.run ops).anchorHostTime = d.anchorHostTime := by
    intro ops
    induction ops with
    | nil => intro d _; rfl
    | cons op rest ih =>
        intro d hops'
        have hstep : (d.step op).anchorHostTime = d.anchorHostTime := by
          cases op with
          | startIO t => exact absurd (hops' _ (List.mem_cons_self _ _)) (by simp [DevOp.isStart])
          | stopIO => rfl
          | doIO opID sz =>
              show ((EchoDevice_DoIOOperation d opID sz).1).anchorHostTime = _
              unfold EchoDevice_DoIOOperation
              split <;> rfl
          | inject data frames => rfl
        have := ih (d.step op) fun op' h' => hops' op' (List.mem_cons_of_mem _ h')
        rw [show d.run (op :: rest) = (d.step op).run rest from rfl, this, hstep]
  refine ⟨rfl, rfl, fun d => rfl, ?_⟩
  show (0, (( EchoDevice_StartIO dev now).run ops).anchorHostTime, 1) = (0, now, 1)
  rw [anchor_stable ops _ hops]
  rfl

/-- Claim C7, counterexample to the claim as stated: at
`frameCount = 2^31` with 2 channels the `UInt32` product
`ioBufferFrameSize * gDevice.channels` wraps to 0, so the read-input
operation requests 0 samples and populates 0 output slots, not the
`frameCount * channelCount = 2^32` the claim asserts. -/
theorem C7_pull_product_wraps_counterexample :
    (((EchoDevice_DoIOOperation devSample kAudioServerPlugInIOOperationReadInput
        (2 ^ 31)).2.getD []).length = 0) ∧
    ¬ (((EchoDevice_DoIOOperation devSample kAudioServerPlugInIOOperationReadInput
        (2 ^ 31)).2.getD []).length = 2 ^ 31 * devSample.channels) := by
  constructor
  · rfl
  · intro h
    have h2 : (0 : Nat) = 2 ^ 31 * devSample.channels := h
    have h3 : (2 : Nat) ^ 31 * devSample.channels = 2 ^ 32 := by decide
    omega

/-- Claim C7 as amended: the per-cycle pull operation with `frameCount`
requests exactly `frameCount * channelCount` reduced modulo 2^32 (both
factors are `UInt32`, so the C product wraps) samples from the buffer's
read, so the host output region is populated with exactly that many
samples (real data followed by zero-fill on underrun); this equals
`frameCount * channelCount` whenever the product stays below 2^32. -/
theorem C7_pull_requests_wrapped_product (dev : EchoDevice) (frameCount : Nat) :
    EchoDevice_DoIOOperation dev kAudioServerPlugInIOOperationReadInput frameCount =
      ({ dev with ringBuffer :=
          (EchoRingBuffer_Read dev.ringBuffer
            (frameCount * dev.channels % 2 ^ 32)).1 },
        some (EchoRingBuffer_Read dev.ringBuffer
          (frameCount * dev.channels % 2 ^ 32)).2.1) ∧
    ((EchoRingBuffer_Read dev.ringBuffer
        (frameCount * dev.channels % 2 ^ 32)).2.1).length =
      frameCount * dev.channels % 2 ^ 32 := by
  constructor
  · unfold EchoDevice_DoIOOperation
    rw [if_pos rfl]
  · show ((dev.ringBuffer.readLoop (min (frameCount * dev.channels % 2 ^ 32)
        (EchoRingBuffer_GetAvailableRead dev.ringBuffer))).2 ++
        List.replicate (frameCount * dev.channels % 2 ^ 32 -
          min (frameCount * dev.channels % 2 ^ 32)
            (EchoRingBuffer_GetAvailableRead dev.ringBuffer)) 0).length =
      frameCount * dev.channels % 2 ^ 32
    rw [List.length_append, EchoRingBuffer.readLoop_length, List.length_replicate]
    omega

/-- Claim C8: `stop()` sets `isRunning := false` and changes nothing
else: the ring buffer (storage, both cursors, capacity), the anchor and
the fixed configuration are unchanged, so buffered samples persist and
remain readable exactly as before the stop. -/
theorem C8_stop_only_clears_running (dev : EchoDevice) :
    EchoDevice_StopIO dev = { dev with isRunning := false } ∧
    ( EchoDevice_StopIO dev).isRunning = false ∧
    ( EchoDevice_StopIO dev).ringBuffer = dev.ringBuffer ∧
    ( EchoDevice_StopIO dev).anchorHostTime = dev.anchorHostTime ∧
    ( EchoDevice_StopIO dev).sampleRate = dev.sampleRate ∧
    ( EchoDevice_StopIO dev).channels = dev.channels ∧
    (∀ frames, EchoRingBuffer_Read ( EchoDevice_StopIO dev).ringBuffer frames =
      EchoRingBuffer_Read dev.ringBuffer frames) :=
  ⟨rfl, rfl, rfl, rfl, rfl, rfl, fun _ => rfl⟩

/-- The two variants' write loops act identically through the
field-for-field correspondence. -/
lemma toEngram_writeLoop (data : List Int) :
    ∀ rb : EchoRingBuffer,
      (rb.writeLoop data).toEngram = (rb.toEngram).writeLoop data := by
  induction data with
  | nil => intro rb; rfl
  | cons v rest ih =>
      intro rb
      exact ih { rb with buffer := rb.buffer.set rb.writeIndex v,
                         writeIndex := (rb.writeIndex + 1) % rb.size }

/-- The two variants' read loops act identically through the
field-for-field correspondence. -/
lemma toEngram_readLoop (n : Nat) :
    ∀ rb : EchoRingBuffer,
      EngramRingBuffer.readLoop rb.toEngram n =
        ((rb.readLoop n).1.toEngram, (rb.readLoop n).2) := by
  induction n with
  | zero => intro rb; rfl
  | succ n ih =>
      intro rb
      have h1 := ih { rb with readIndex := (rb.readIndex + 1) % rb.size }
      simp only [EchoRingBuffer.readLoop, EngramRingBuffer.readLoop]
      rw [show ({ rb.toEngram with
            readIndex := (rb.toEngram.readIndex + 1) % rb.toEngram.size } :
          EngramRingBuffer) =
          ({ rb with readIndex := (rb.readIndex + 1) % rb.size } :
            EchoRingBuffer).toEngram from rfl, h1]
      rfl

/-- Claim C9: The two device variants' ring-buffer operations are
extensionally equal: through the field-for-field state correspondence,
`EngramRingBuffer_Write/Read/GetAvailableRead/GetAvailableWrite` return
the same results and successor states as the `EchoRingBuffer_*`
versions, on every state and input. -/
theorem C9_variant_equivalence (rb : EchoRingBuffer) (data : List Int) (frames : Nat) :
    EngramRingBuffer_GetAvailableRead rb.toEngram =
      EchoRingBuffer_GetAvailableRead rb ∧
    EngramRingBuffer_GetAvailableWrite rb.toEngram =
      EchoRingBuffer_GetAvailableWrite rb ∧
    EngramRingBuffer_Write rb.toEngram data frames =
      ((EchoRingBuffer_Write rb data frames).1.toEngram,
        (EchoRingBuffer_Write rb data frames).2) ∧
    EngramRingBuffer_Read rb.toEngram frames =
      ((EchoRingBuffer_Read rb frames).1.toEngram,
        (EchoRingBuffer_Read rb frames).2.1,
        (EchoRingBuffer_Read rb frames).2.2) := by
  have hAW : EngramRingBuffer_GetAvailableWrite rb.toEngram =
      EchoRingBuffer_GetAvailableWrite rb := rfl
  have hAR : EngramRingBuffer_GetAvailableRead rb.toEngram =
      EchoRingBuffer_GetAvailableRead rb := rfl
  refine ⟨hAR, hAW, ?_, ?_⟩
  · show (EngramRingBuffer.writeLoop rb.toEngram
        (data.take (min frames (EngramRingBuffer_GetAvailableWrite rb.toEngram))),
        min frames (EngramRingBuffer_GetAvailableWrite rb.toEngram)) = _
    rw [hAW, ← toEngram_writeLoop]
    rfl
  · show ((EngramRingBuffer.readLoop rb.toEngram
        (min frames (EngramRingBuffer_GetAvailableRead rb.toEngram))).1,
        (EngramRingBuffer.readLoop rb.toEngram
          (min frames (EngramRingBuffer_GetAvailableRead rb.toEngram))).2 ++
          List.replicate (frames - min frames
            (EngramRingBuffer_GetAvailableRead rb.toEngram)) 0,
        min frames (EngramRingBuffer_GetAvailableRead rb.toEngram)) = _
    rw [hAR, toEngram_readLoop]
    rfl

/-- Claim C10: The pull operation's behavior does not depend on the
running flag: for two device states that differ only in `isRunning`,
`EchoDevice_DoIOOperation` produces the identical output region and the
identical successor ring-buffer state, while each device keeps its own
running flag. -/
theorem C10_pull_independent_of_running (dev1 dev2 : EchoDevice) (opID fc : Nat)
    (hrb : dev1.ringBuffer = dev2.ringBuffer)
    (hch : dev1.channels = dev2.channels)
    (hsr : dev1.sampleRate = dev2.sampleRate)
    (han : dev1.anchorHostTime = dev2.anchorHostTime) :
    (EchoDevice_DoIOOperation dev1 opID fc).2 =
      (EchoDevice_DoIOOperation dev2 opID fc).2 ∧
    (EchoDevice_DoIOOperation dev1 opID fc).1.ringBuffer =
      (EchoDevice_DoIOOperation dev2 opID fc).1.ringBuffer ∧
    (EchoDevice_DoIOOperation dev1 opID fc).1.isRunning = dev1.isRunning ∧
    (EchoDevice_DoIOOperation dev2 opID fc).1.isRunning = dev2.isRunning := by
  by_cases h : opID = kAudioServerPlugInIOOperationReadInput <;>
    simp [EchoDevice_DoIOOperation, h, hrb, hch]

/-! ## Witnesses -/

/-- Witness for C1 at `rbSample` with `count = 5` (occupied is 1, so four
slots are zero-filled). -/
theorem C1_read_underrun_zero_fill_witness :
    rbSample.WF ∧
    (let occ := EchoRingBuffer_GetAvailableRead rbSample
     let result := EchoRingBuffer_Read rbSample 5
     result.2.2 = min 5 occ ∧
     result.2.1 =
       rbSample.fifoSamples (min 5 occ) ++ List.replicate (5 - min 5 occ) 0 ∧
     result.2.1.length = 5 ∧
     (∀ i, min 5 occ ≤ i → i < 5 → result.2.1.getD i 0 = 0) ∧
     result.1.readIndex = (rbSample.readIndex + min 5 occ) % rbSample.size ∧
     result.1.writeIndex = rbSample.writeIndex ∧
     result.1.buffer = rbSample.buffer ∧
     result.1.size = rbSample.size) :=
  ⟨by decide, C1_read_underrun_zero_fill rbSample 5 (by decide)⟩

/-- Witness for C2 at `rbSample` writing 2 of the 3 supplied samples. -/
theorem C2_write_overrun_drop_witness :
    (rbSample.WF ∧ 2 ≤ ([7, 8, 9] : List Int).length) ∧
    (let free := EchoRingBuffer_GetAvailableWrite rbSample
     let result := EchoRingBuffer_Write rbSample [7, 8, 9] 2
     result.2 = min 2 free ∧
     result.1.writeIndex = (rbSample.writeIndex + min 2 free) % rbSample.size ∧
     result.1.readIndex = rbSample.readIndex ∧
     result.1.size = rbSample.size ∧
     result.1.buffer.length = rbSample.size ∧
     (∀ i, i < min 2 free →
       result.1.buffer.getD ((rbSample.writeIndex + i) % rbSample.size) 0 =
         ([7, 8, 9] : List Int).getD i 0) ∧
     (∀ j, (∀ i, i < min 2 free → (rbSample.writeIndex + i) % rbSample.size ≠ j) →
       result.1.buffer.getD j 0 = rbSample.buffer.getD j 0) ∧
     (2 = 0 → result.1 = rbSample ∧ result.2 = 0)) :=
  ⟨⟨by decide, by decide⟩, C2_write_overrun_drop rbSample [7, 8, 9] 2 (by decide) (by decide)⟩

/-- Witness for C3 at capacity 4: writing 3 fills the buffer, the next
write of one sample returns 0 and changes nothing. -/
theorem C3_usable_capacity_witness :
    (0 < 4 ∧ 4 - 1 ≤ ([1, 2, 3] : List Int).length ∧ 1 ≤ 1) ∧
    ((∀ rb : EchoRingBuffer, EchoRingBuffer_GetAvailableWrite rb =
        rb.size - EchoRingBuffer_GetAvailableRead rb - 1) ∧
     (EchoRingBuffer_Write (EchoRingBuffer_Init 4) [1, 2, 3] (4 - 1)).2 = 4 - 1 ∧
     EchoRingBuffer_Write
         (EchoRingBuffer_Write (EchoRingBuffer_Init 4) [1, 2, 3] (4 - 1)).1 [9] 1 =
       ((EchoRingBuffer_Write (EchoRingBuffer_Init 4) [1, 2, 3] (4 - 1)).1, 0)) :=
  ⟨⟨by decide, by decide, by decide⟩,
    C3_usable_capacity 4 (by decide) [1, 2, 3] [9] 1 (by decide) (by decide)⟩

/-- Witness for C4 at capacity 3 over a write/read/overflowing-write
sequence. -/
theorem C4_invariant_preserved_witness :
    0 < 3 ∧
    (let rb := (EchoRingBuffer_Init 3).runOps
        [RBOp.write [5, 6] 2, RBOp.read 1, RBOp.write [7, 8, 9] 3]
     rb.size = 3 ∧ rb.writeIndex < 3 ∧ rb.readIndex < 3 ∧
     EchoRingBuffer_GetAvailableRead rb =
       (if rb.writeIndex ≥ rb.readIndex then rb.writeIndex - rb.readIndex
        else 3 - rb.readIndex + rb.writeIndex) ∧
     EchoRingBuffer_GetAvailableRead rb ≤ 3 - 1) :=
  ⟨by decide, C4_invariant_preserved 3 (by decide)
    [RBOp.write [5, 6] 2, RBOp.read 1, RBOp.write [7, 8, 9] 3]⟩

/-- Witness for C5 at capacity 8 writing the 7-sample pattern of the
spec's example in two chunks. -/
theorem C5_round_trip_witness :
    (0 < 8 ∧ (([[1, 2, 3], [4, 5, 6, 7]] : List (List Int)).join).length ≤ 8 - 1) ∧
    ((EchoRingBuffer_Read
        ((EchoRingBuffer_Init 8).writeChunks [[1, 2, 3], [4, 5, 6, 7]])
        (([[1, 2, 3], [4, 5, 6, 7]] : List (List Int)).join).length).2.1 =
      ([[1, 2, 3], [4, 5, 6, 7]] : List (List Int)).join ∧
     (EchoRingBuffer_Read
        ((EchoRingBuffer_Init 8).writeChunks [[1, 2, 3], [4, 5, 6, 7]])
        (([[1, 2, 3], [4, 5, 6, 7]] : List (List Int)).join).length).2.2 =
      (([[1, 2, 3], [4, 5, 6, 7]] : List (List Int)).join).length) :=
  ⟨⟨by decide, by decide⟩,
    C5_round_trip 8 (by decide) [[1, 2, 3], [4, 5, 6, 7]] (by decide)⟩

/-- Witness for C6: start at host time 42, then stop, one IO cycle and
one injection; the zero timestamp still reports 42. -/
theorem C6_start_anchors_timestamp_witness :
    (∀ op ∈ [DevOp.stopIO, DevOp.doIO 2 1, DevOp.inject [5] 1],
      op.isStart = false) ∧
    (( EchoDevice_StartIO devSample 42).isRunning = true ∧
     ( EchoDevice_StartIO devSample 42).anchorHostTime = 42 ∧
     (∀ d : EchoDevice, EchoDevice_GetZeroTimeStamp d = (0, d.anchorHostTime, 1)) ∧
     EchoDevice_GetZeroTimeStamp (( EchoDevice_StartIO devSample 42).run
       [DevOp.stopIO, DevOp.doIO 2 1, DevOp.inject [5] 1]) = (0, 42, 1)) :=
  ⟨by decide, C6_start_anchors_timestamp devSample 42
    [DevOp.stopIO, DevOp.doIO 2 1, DevOp.inject [5] 1] (by decide)⟩

/-- Witness for C10 on two devices identical up to the running flag. -/
theorem C10_pull_independent_of_running_witness :
    (devSampleRunning.ringBuffer = devSampleStopped.ringBuffer ∧
     devSampleRunning.channels = devSampleStopped.channels ∧
     devSampleRunning.sampleRate = devSampleStopped.sampleRate ∧
     devSampleRunning.anchorHostTime = devSampleStopped.anchorHostTime) ∧
    ((EchoDevice_DoIOOperation devSampleRunning 2 3).2 =
       (EchoDevice_DoIOOperation devSampleStopped 2 3).2 ∧
     (EchoDevice_DoIOOperation devSampleRunning 2 3).1.ringBuffer =
       (EchoDevice_DoIOOperation devSampleStopped 2 3).1.ringBuffer ∧
     (EchoDevice_DoIOOperation devSampleRunning 2 3).1.isRunning =
       devSampleRunning.isRunning ∧
     (EchoDevice_DoIOOperation devSampleStopped 2 3).1.isRunning =
       devSampleStopped.isRunning) :=
  ⟨⟨rfl, rfl, rfl, rfl⟩,
    C10_pull_independent_of_running devSampleRunning devSampleStopped 2 3
      rfl rfl rfl rfl⟩
